import Mathlib

/-!
Verification development for the travis-status repository.

This file shallowly embeds the status-resolution and polling core of the
repository: the `queryWithWait` poller of `lib/travis-status-checker.js`,
the pending-state table of `lib/state-info.js`, the slug validation of
`lib/git-status-checker.js`, the commit verifier `checkBuildCommit` and the
orchestrator `travisStatus` of `index.js`.  Pure functions become Lean
functions; promise chains become explicit result/trace passing; machine
time is modelled as a natural number of elapsed milliseconds; fallible
code returns `Except`.
-/

set_option autoImplicit false

namespace TravisStatus

/-! ## Poller constants (lib/travis-status-checker.js lines 14-25) -/

/-- Time to wait before polling status on first retry, in milliseconds
(`POLL_TIME_START_MS` in lib/travis-status-checker.js). -/
def POLL_TIME_START_MS : Nat := 4000

/-- Maximum amount of time to wait between each status request when polling
(`POLL_TIME_MAX_MS` in lib/travis-status-checker.js). -/
def POLL_TIME_MAX_MS : Nat := 60000

/-! ## The `options.wait` value

`queryWithWait` receives `options.wait` as an arbitrary JavaScript value and
computes `options && options.wait ? Number(options.wait) : 0`.  We model a
JavaScript value by the two attributes this code can observe: its truthiness
and the result of `Number(·)` (`none` models a NaN conversion result; finite
numeric results are modelled as integers, the only values the claims need).
Note that in JavaScript the number value NaN is itself falsy, and
`Number(NaN)` is NaN: it is modelled by `jsNaN` below. -/

structure WaitValue where
  truthy : Bool
  toNumber : Option Int
deriving DecidableEq

/-- An ordinary finite number `n` as a JavaScript value: falsy exactly when
it is zero, and `Number(n) = n`. -/
def jsNum (n : Int) : WaitValue := ⟨n != 0, some n⟩

/-- The JavaScript number value NaN: falsy, and not convertible to a number. -/
def jsNaN : WaitValue := ⟨false, none⟩

/-! ## Poller outcomes -/

/-- The ways a `queryWithWait` promise can reject
(lib/travis-status-checker.js lines 98-127). `E` is the type of errors
produced by the underlying `travis-ci` query and is kept abstract. -/
inductive PollError (E : Type) where
  /-- `new TypeError('wait must be a number')` (line 99). -/
  | typeError
  /-- `new RangeError('wait must be non-negative')` (line 102). -/
  | rangeError
  /-- the query callback produced an error (line 116). -/
  | queryError (e : E)
  /-- `valueIsPending(result)` threw (line 125). -/
  | classifierError
deriving DecidableEq

/-- Settlement of the promise returned by `queryWithWait`.  `hung` models a
run in which the supplied response stream is exhausted before the promise
settles (the real promise would simply never settle). -/
inductive PollOutcome (V E : Type) where
  | resolved (v : V)
  | rejected (e : PollError E)
  | hung
deriving DecidableEq

/-- Observable behaviour of one `queryWithWait` call: how it settled, how
many times `query.get` was invoked, and the sequence of `setTimeout` retry
delays that were scheduled, in order. -/
structure PollResult (V E : Type) where
  outcome : PollOutcome V E
  numQueries : Nat
  delays : List Nat
deriving DecidableEq

/-- `options && options.wait ? Number(options.wait) : 0` followed by the
`isNaN` / negativity checks of lib/travis-status-checker.js lines 97-103.
`none` models an absent options object or an absent `wait` property
(`undefined` is falsy, so both take the `: 0` branch). -/
def toMaxWait {E : Type} (wait : Option WaitValue) : Except (PollError E) Int :=
  let m : Option Int :=
    match wait with
    | none => some 0
    | some v => if v.truthy then v.toNumber else some 0
  match m with
  | none => Except.error PollError.typeError
  | some n => if n < 0 then Except.error PollError.rangeError else Except.ok n

/-- The `doQuery` / `checkBuild` loop of lib/travis-status-checker.js lines
109-147.  Each element of the response stream is one settlement of
`query.get`: a duration in milliseconds (time spent between issuing the
query and observing its callback) paired with the callback payload.  Sleeps
scheduled with `setTimeout` last exactly the scheduled delay, so `elapsed`
models `Date.now() - startMs` at the moment a result is observed.  The
classifier may fail (`Except.error ()` models `valueIsPending` throwing). -/
def queryLoop {V E : Type} (isPendingFn : V → Except Unit Bool) (maxWaitMs : Nat) :
    List (Nat × Except E V) → Nat → Nat → PollResult V E
  | [], _, _ => ⟨PollOutcome.hung, 0, []⟩
  | (dur, out) :: rest, elapsedPrev, nextWaitMs =>
    let elapsed := elapsedPrev + dur
    match out with
    | Except.error e => ⟨PollOutcome.rejected (PollError.queryError e), 1, []⟩
    | Except.ok result =>
      if maxWaitMs = 0 then ⟨PollOutcome.resolved result, 1, []⟩
      else
        match isPendingFn result with
        | Except.error _ => ⟨PollOutcome.rejected PollError.classifierError, 1, []⟩
        | Except.ok false => ⟨PollOutcome.resolved result, 1, []⟩
        | Except.ok true =>
          if elapsed < maxWaitMs then
            let d := min (min (nextWaitMs * 2) POLL_TIME_MAX_MS) (maxWaitMs - elapsed)
            let r := queryLoop isPendingFn maxWaitMs rest (elapsed + d) d
            ⟨r.outcome, r.numQueries + 1, d :: r.delays⟩
          else ⟨PollOutcome.resolved result, 1, []⟩

/-- `queryWithWait` of lib/travis-status-checker.js lines 96-149: validate
the wait option, then run the query loop with `elapsed = 0` and the doubling
state initialised to `POLL_TIME_START_MS / 2` (the code divides by two so it
can double unconditionally before the first retry). -/
def queryWithWait {V E : Type} (isPendingFn : V → Except Unit Bool)
    (wait : Option WaitValue) (responses : List (Nat × Except E V)) : PollResult V E :=
  match toMaxWait (E := E) wait with
  | Except.error e => ⟨PollOutcome.rejected e, 0, []⟩
  | Except.ok n => queryLoop isPendingFn n.toNat responses 0 (POLL_TIME_START_MS / 2)

/-- The idealised truncated-exponential-backoff delay sequence: starting
from doubling state `nextWaitMs`, the next delay is
`min (nextWaitMs * 2) POLL_TIME_MAX_MS`, which also becomes the new doubling
state.  When the wait budget is ample this is exactly the delay sequence the
code schedules. -/
def idealDelays : Nat → Nat → List Nat
  | 0, _ => []
  | k + 1, nextWaitMs =>
    let d := min (nextWaitMs * 2) POLL_TIME_MAX_MS
    d :: idealDelays k d

/-! ## JSON values returned by the Travis CI API

The core reads only a handful of fields of API responses, but responses are
arbitrary JSON, so we model parsed JSON values.  A JavaScript object is an
ordered association of string keys to values; objects parsed from JSON never
contain `undefined` values, so an absent property is represented as `none`
at the access site rather than by a constructor. -/

inductive JsVal where
  | null
  | num (n : Int)
  | str (s : String)
  | obj (fields : List (String × JsVal))

/-- Property lookup in an object field list: the first binding wins (JSON
objects produced by the API have distinct keys). -/
def objGet (fields : List (String × JsVal)) (k : String) : Option JsVal :=
  match fields.find? (fun p => p.1 == k) with
  | some p => some p.2
  | none => none

/-- Property assignment as performed by object spread: if the key is already
present the binding is updated in place, otherwise it is appended. -/
def objSet (fields : List (String × JsVal)) (k : String) (v : JsVal) :
    List (String × JsVal) :=
  if fields.any (fun p => p.1 == k) then
    fields.map (fun p => if p.1 == k then (k, v) else p)
  else fields ++ [(k, v)]

/-- `{ ...a, ...b }` on field lists: start from `a` and assign every binding
of `b` in order, so `b` overrides `a` on key collision. -/
def objSpread2 (a b : List (String × JsVal)) : List (String × JsVal) :=
  b.foldl (fun acc p => objSet acc p.1 p.2) a

/-- The fields contributed by a value under object spread.  `null` and
numbers contribute nothing; spreading a string would contribute its index
properties, which no claim exercises and which are not modelled. -/
def spreadFields : JsVal → List (String × JsVal)
  | JsVal.obj fs => fs
  | _ => []

/-- `{ ...repo, ...build }` of index.js line 212. -/
def mergeResults (a b : JsVal) : JsVal :=
  JsVal.obj (objSpread2 (spreadFields a) (spreadFields b))

/-- JavaScript property access `v[k]`: throws a TypeError when the base is
null (modelled by `Except.error ()`), yields the property or `undefined`
(modelled by `Option`) otherwise.  Primitive bases have no own properties of
the names the core reads. -/
def jsMember (v : JsVal) (k : String) : Except Unit (Option JsVal) :=
  match v with
  | JsVal.null => Except.error ()
  | JsVal.obj fs => Except.ok (objGet fs k)
  | _ => Except.ok none

/-- String conversion as performed by template literals. -/
def jsToString : JsVal → String
  | JsVal.null => "null"
  | JsVal.num n => toString n
  | JsVal.str s => s
  | JsVal.obj _ => "[object Object]"

/-- Template-literal conversion of a possibly-undefined value. -/
def jsOptToString : Option JsVal → String
  | none => "undefined"
  | some v => jsToString v

/-! ## Pending-state classification (lib/state-info.js lines 30-35 and
lib/travis-status-checker.js lines 65-75) -/

/-- `stateInfo.isPending` has exactly the keys created, queued, received and
started. -/
def isPendingState (s : String) : Bool :=
  s == "created" || s == "queued" || s == "received" || s == "started"

/-- `stateInfo.isPending[x]` for an arbitrary property value `x`: a missing
property and a non-string state both index a key that is absent from the
table, giving `undefined`, which is falsy. -/
def statePending (stateVal : Option JsVal) : Bool :=
  match stateVal with
  | some (JsVal.str s) => isPendingState s
  | _ => false

/-- `branchIsPending` (lib/travis-status-checker.js line 65):
`stateInfo.isPending[branch.branch.state]`, throwing when `branch.branch` is
null or undefined. -/
def branchIsPending (v : JsVal) : Except Unit Bool :=
  match jsMember v "branch" with
  | Except.error _ => Except.error ()
  | Except.ok none => Except.error ()
  | Except.ok (some b) =>
    match jsMember b "state" with
    | Except.error _ => Except.error ()
    | Except.ok st => Except.ok (statePending st)

/-- `buildIsPending` (lib/travis-status-checker.js line 69). -/
def buildIsPending (v : JsVal) : Except Unit Bool :=
  match jsMember v "build" with
  | Except.error _ => Except.error ()
  | Except.ok none => Except.error ()
  | Except.ok (some b) =>
    match jsMember b "state" with
    | Except.error _ => Except.error ()
    | Except.ok st => Except.ok (statePending st)

/-- `repoIsPending` (lib/travis-status-checker.js line 73):
`stateInfo.isPending[repo.repo.last_build_state]`. -/
def repoIsPending (v : JsVal) : Except Unit Bool :=
  match jsMember v "repo" with
  | Except.error _ => Except.error ()
  | Except.ok none => Except.error ()
  | Except.ok (some r) =>
    match jsMember r "last_build_state" with
    | Except.error _ => Except.error ()
    | Except.ok st => Except.ok (statePending st)

/-! ## Slug validation (lib/git-status-checker.js lines 87-114) -/

/-- The ECMAScript whitespace class matched by the regular-expression
class `\s`. -/
def jsWhitespace (c : Char) : Bool :=
  let n := c.toNat
  n == 9 || n == 10 || n == 11 || n == 12 || n == 13 || n == 32 ||
  n == 0xa0 || n == 0x1680 || (0x2000 ≤ n && n ≤ 0x200a) ||
  n == 0x2028 || n == 0x2029 || n == 0x202f || n == 0x205f ||
  n == 0x3000 || n == 0xfeff

/-- A character allowed inside a slug segment: the class `[^\s\/]`. -/
def slugChar (c : Char) : Bool := !jsWhitespace c && !(c == '/')

/-- A nonempty run of slug characters: `[^\s\/]+` anchored on both sides. -/
def segOk (cs : List Char) : Bool := !cs.isEmpty && cs.all slugChar

/-- Splits a character list at its first slash, returning the parts before
and after it. -/
def slugSplit : List Char → Option (List Char × List Char)
  | [] => none
  | c :: cs =>
    if c == '/' then some ([], cs)
    else
      match slugSplit cs with
      | some (a, b) => some (c :: a, b)
      | none => none

/-- Matcher for `GitStatusChecker.SLUG_VALID_RE`, the regular expression
`/^[^\s\/]+\/[^\s\/]+$/` of lib/git-status-checker.js line 93.  Both
character classes exclude the separator, so matching is deterministic: the
string must split at its first (and only) slash into two nonempty
whitespace-free slash-free segments. -/
def SLUG_VALID (s : String) : Bool :=
  match slugSplit s.data with
  | some (a, b) => segOk a && segOk b
  | none => false

/-- `InvalidSlugError` carrying the offending slug, as thrown by
`checkSlugFormat` (lib/git-status-checker.js lines 107-114). -/
inductive SlugError where
  | invalidSlug (slug : String)
deriving DecidableEq

/-- `GitStatusChecker.checkSlugFormat`: returns the slug unchanged when it
matches `SLUG_VALID_RE`, otherwise throws an `InvalidSlugError` carrying the
slug. -/
def checkSlugFormat (slug : String) : Except SlugError String :=
  if SLUG_VALID slug then Except.ok slug
  else Except.error (SlugError.invalidSlug slug)

/-! ## Commit verification (index.js lines 28-42) -/

/-- The `localCommit` object built by index.js lines 178-185: the resolved
hash, and the original reference name when it differed from the hash. -/
structure LocalCommit where
  sha : String
  name : Option String
deriving DecidableEq

/-- Failures of `checkBuildCommit`: the TypeError thrown when
`build.commit` is missing (so `buildCommit.sha` cannot be read), or the
AssertionError of `assert.strictEqual` carrying the built message. -/
inductive CommitErr where
  | typeErr
  | mismatch (msg : String)
deriving DecidableEq

/-- `checkBuildCommit` of index.js lines 28-42: reads `build.commit.sha`,
builds the failure message (including `localCommit.name` when present), and
compares the embedded hash against `localCommit.sha` with
`assert.strictEqual`.  Strict equality of a JSON value with a string holds
exactly when the value is that string. -/
def checkBuildCommit (build : JsVal) (localCommit : LocalCommit) :
    Except CommitErr JsVal :=
  match jsMember build "commit" with
  | Except.error _ => Except.error CommitErr.typeErr
  | Except.ok none => Except.error CommitErr.typeErr
  | Except.ok (some buildCommit) =>
    match jsMember buildCommit "sha" with
    | Except.error _ => Except.error CommitErr.typeErr
    | Except.ok shaVal =>
      let message :=
        "Build commit " ++ jsOptToString shaVal ++ " does not match " ++
          localCommit.sha
      let message :=
        match localCommit.name with
        | some n => message ++ " (" ++ n ++ ")"
        | none => message
      match shaVal with
      | some (JsVal.str s) =>
        if s = localCommit.sha then Except.ok build
        else Except.error (CommitErr.mismatch message)
      | _ => Except.error (CommitErr.mismatch message)

/-! ## The orchestrator (index.js lines 96-240)

`travisStatus` composes the git collaborator, the Travis checker and the
verifier.  The collaborators are injected as oracles: git operations are
modelled by their results for one invocation, and each remote resource is
modelled by the stream of query settlements the Travis API would deliver for
it, which the poller consumes.  The run is summarised by a trace (which
slugs were persisted to the git configuration and which remote queries were
issued, each with its number of HTTP requests) together with the settlement
of the returned promise.

Aspects of index.js with no bearing on the claims are not modelled: the
callback/`nodeify` calling convention, the TypeError for non-object
arguments, and the keep-alive agent creation and cleanup (which performs no
remote query by itself).  Truthiness tests on string options (`options.repo`
etc.) are modelled by `Option String` with `none` for an absent or empty
string. -/

/-- `options.branch`: a branch name, or `true` requesting the current
branch. -/
inductive BranchOpt where
  | current
  | named (name : String)
deriving DecidableEq

/-- The claim-relevant fields of `TravisStatusOptions`. -/
structure Options where
  repo : Option String
  storeRepo : Option String
  branch : Option BranchOpt
  commit : Option String
  interactive : Bool
  wait : Option WaitValue

/-- Results of the local git operations for one invocation.  `findSlug`
composes `loadSlug` and `detectSlug` (including the interactive
confirmation); the claims treat it as one local gather step, so it is one
oracle.  `configSetOk` tells whether `git config travis.slug <slug>` would
succeed (its failure is caught by `tryStoreSlug` and downgraded to a
notice). -/
structure GitEnv (E : Type) where
  findSlugResult : Except E String
  detectBranchResult : Except E String
  resolveHashResult : String → Except E String
  configSetOk : Bool

/-- Query settlement streams of the Travis CI API, one per resource shape.
`getBuild` requests `/builds/{id}` and ignores its repo-name argument, so
build streams are keyed by the build id value alone. -/
structure TravisEnv (E : Type) where
  repoResponses : String → List (Nat × Except E JsVal)
  branchResponses : String → String → List (Nat × Except E JsVal)
  buildResponses : Option JsVal → List (Nat × Except E JsVal)

/-- A remote query issued by the orchestrator.  The arguments of the build
query are the values of `repo.repo.slug` and `repo.repo.last_build_id` read
from the repository response (either may be `undefined`). -/
inductive RemoteQuery where
  | repoQ (slug : String)
  | branchQ (slug : String) (branch : String)
  | buildQ (slugArg : Option JsVal) (buildId : Option JsVal)

/-- Whether a remote query is a chained build query. -/
def isBuildQuery : RemoteQuery → Bool
  | RemoteQuery.buildQ _ _ => true
  | _ => false

/-- The slug argument a query was issued with, when it is a repo or branch
query. -/
def querySlug : RemoteQuery → Option String
  | RemoteQuery.repoQ slug => some slug
  | RemoteQuery.branchQ slug _ => some slug
  | RemoteQuery.buildQ _ _ => none

/-- Rejection reasons of the promise returned by `travisStatus`. -/
inductive OrchErr (E : Type) where
  /-- `InvalidSlugError` from `checkSlugFormat`. -/
  | invalidSlug (slug : String)
  /-- a TypeError: non-numeric wait, or property access on null/undefined. -/
  | typeErr
  /-- the RangeError for a negative wait. -/
  | rangeErr
  /-- a local git operation failed. -/
  | gitErr (e : E)
  /-- a remote query delivered an error. -/
  | queryErr (e : E)
  /-- a pending classifier threw. -/
  | classifierErr
  /-- the AssertionError of `checkBuildCommit`, carrying its message. -/
  | commitMismatch (msg : String)

/-- Settlement of the promise returned by `travisStatus`. -/
inductive Outcome (E : Type) where
  | resolved (v : JsVal)
  | rejected (e : OrchErr E)
  | hung

/-- Observable behaviour of one `travisStatus` invocation. -/
structure RunResult (E : Type) where
  storedSlugs : List String
  queries : List (RemoteQuery × Nat)
  outcome : Outcome E

/-- Injects poller rejections into orchestrator rejections. -/
def pollErrToOrch {E : Type} : PollError E → OrchErr E
  | PollError.typeError => OrchErr.typeErr
  | PollError.rangeError => OrchErr.rangeErr
  | PollError.queryError e => OrchErr.queryErr e
  | PollError.classifierError => OrchErr.classifierErr

/-- Injects poller settlements into orchestrator settlements. -/
def liftPoll {E : Type} : PollOutcome JsVal E → Outcome E
  | PollOutcome.resolved v => Outcome.resolved v
  | PollOutcome.rejected e => Outcome.rejected (pollErrToOrch e)
  | PollOutcome.hung => Outcome.hung

/-- The synchronous validation of `options.storeRepo`
(index.js lines 116-118). -/
def validateStore {E : Type} (opts : Options) : Except (OrchErr E) Unit :=
  match opts.storeRepo with
  | some s =>
    if SLUG_VALID s then Except.ok () else Except.error (OrchErr.invalidSlug s)
  | none => Except.ok ()

/-- The synchronous validation of index.js lines 113-118: `options.repo`
is format-checked first, then `options.storeRepo`. -/
def validateSlugOpts {E : Type} (opts : Options) : Except (OrchErr E) Unit :=
  match opts.repo with
  | some r =>
    if SLUG_VALID r then validateStore opts
    else Except.error (OrchErr.invalidSlug r)
  | none => validateStore opts

/-- The `repoSlugP` computation of index.js lines 157-174, together with the
slugs persisted by `tryStoreSlug` along the way.  `tryStoreSlug` never
rejects: `storeSlug` format-checks its argument and runs
`git config travis.slug <slug>`, and any failure is written to the error
stream while the slug is still returned.  In the autodetection path the
found slug is format-checked, and stored only when interactive. -/
def resolveSlugPhase {E : Type} (opts : Options) (git : GitEnv E) :
    List String × Except (OrchErr E) String :=
  match opts.storeRepo with
  | some s =>
    let stored := if SLUG_VALID s && git.configSetOk then [s] else []
    (stored, Except.ok (opts.repo.getD s))
  | none =>
    match opts.repo with
    | some r => ([], Except.ok r)
    | none =>
      match git.findSlugResult with
      | Except.error e => ([], Except.error (OrchErr.gitErr e))
      | Except.ok slug =>
        if SLUG_VALID slug then
          if opts.interactive then
            (if git.configSetOk then [slug] else [], Except.ok slug)
          else ([], Except.ok slug)
        else ([], Except.error (OrchErr.invalidSlug slug))

/-- The `localCommitP` computation of index.js lines 176-186: resolve the
commit reference and record the original name when it differs from the
hash. -/
def localCommitPhase {E : Type} (opts : Options) (git : GitEnv E) :
    Except (OrchErr E) (Option LocalCommit) :=
  match opts.commit with
  | none => Except.ok none
  | some c =>
    match git.resolveHashResult c with
    | Except.error e => Except.error (OrchErr.gitErr e)
    | Except.ok h =>
      Except.ok (some ⟨h, if h = c then none else some c⟩)

/-- `slugForQueryP` of index.js lines 188-190:
`Promise.all([repoSlugP, localCommitP])` projected to the slug.  When both
inputs are already rejected the rejection of `repoSlugP` wins, because
`Promise.all` subscribes to it first. -/
def slugForQuery {E : Type} (repoSlugE : Except (OrchErr E) String)
    (localCommitE : Except (OrchErr E) (Option LocalCommit)) :
    Except (OrchErr E) String :=
  match repoSlugE with
  | Except.error e => Except.error e
  | Except.ok slug =>
    match localCommitE with
    | Except.error e => Except.error e
    | Except.ok _ => Except.ok slug

/-- The `branchP` computation of index.js lines 194-195: `none` when no
branch was requested, otherwise the explicit name or the result of
`detectBranch`. -/
def branchPhase {E : Type} (opts : Options) (git : GitEnv E) :
    Option (Except (OrchErr E) String) :=
  match opts.branch with
  | none => none
  | some (BranchOpt.named b) => some (Except.ok b)
  | some BranchOpt.current =>
    match git.detectBranchResult with
    | Except.error e => some (Except.error (OrchErr.gitErr e))
    | Except.ok b => some (Except.ok b)

/-- The chained build query of index.js lines 206-212: read
`repo.repo.slug` and `repo.repo.last_build_id` from the repository result
(a TypeError when `repo.repo` is null or undefined), call `getBuild` with
NO query options, and merge the two results with `{ ...repo, ...build }`. -/
def buildChain {E : Type} (travis : TravisEnv E) (repoV : JsVal) :
    List (RemoteQuery × Nat) × Outcome E :=
  match jsMember repoV "repo" with
  | Except.error _ => ([], Outcome.rejected OrchErr.typeErr)
  | Except.ok none => ([], Outcome.rejected OrchErr.typeErr)
  | Except.ok (some repoField) =>
    match jsMember repoField "slug" with
    | Except.error _ => ([], Outcome.rejected OrchErr.typeErr)
    | Except.ok slugArg =>
      match jsMember repoField "last_build_id" with
      | Except.error _ => ([], Outcome.rejected OrchErr.typeErr)
      | Except.ok buildId =>
        let pr := queryWithWait buildIsPending none (travis.buildResponses buildId)
        ([(RemoteQuery.buildQ slugArg buildId, pr.numQueries)],
          match pr.outcome with
          | PollOutcome.resolved buildV =>
            Outcome.resolved (mergeResults repoV buildV)
          | PollOutcome.rejected e => Outcome.rejected (pollErrToOrch e)
          | PollOutcome.hung => Outcome.hung)

/-- The query step of index.js lines 192-216: branch queries when a branch
was requested, otherwise the repository query, chained with a build query
when a commit check was requested.  No query starts unless `slugForQueryP`
(and, on the branch path, `branchP`) resolved. -/
def queryPhase {E : Type} (opts : Options)
    (slugE : Except (OrchErr E) String)
    (branchE : Option (Except (OrchErr E) String)) (travis : TravisEnv E) :
    List (RemoteQuery × Nat) × Outcome E :=
  match branchE with
  | some be =>
    match slugE, be with
    | Except.error e, _ => ([], Outcome.rejected e)
    | Except.ok _, Except.error e => ([], Outcome.rejected e)
    | Except.ok slug, Except.ok branch =>
      let pr := queryWithWait branchIsPending opts.wait
        (travis.branchResponses slug branch)
      ([(RemoteQuery.branchQ slug branch, pr.numQueries)], liftPoll pr.outcome)
  | none =>
    match slugE with
    | Except.error e => ([], Outcome.rejected e)
    | Except.ok slug =>
      let pr := queryWithWait repoIsPending opts.wait (travis.repoResponses slug)
      let repoEntry := (RemoteQuery.repoQ slug, pr.numQueries)
      match pr.outcome with
      | PollOutcome.rejected e => ([repoEntry], Outcome.rejected (pollErrToOrch e))
      | PollOutcome.hung => ([repoEntry], Outcome.hung)
      | PollOutcome.resolved repoV =>
        if opts.commit.isSome then
          let chained := buildChain travis repoV
          (repoEntry :: chained.1, chained.2)
        else ([repoEntry], Outcome.resolved repoV)

/-- The verification step of index.js lines 218-227: when a commit check
was requested and the query resolved, run `checkBuildCommit` on the result
and return the result unchanged on success.  When the commit resolution
itself failed the query step already rejected, so the settlement passes
through. -/
def verifyPhase {E : Type}
    (localCommitE : Except (OrchErr E) (Option LocalCommit)) :
    Outcome E → Outcome E
  | Outcome.resolved v =>
    match localCommitE with
    | Except.ok (some lc) =>
      match checkBuildCommit v lc with
      | Except.ok v2 => Outcome.resolved v2
      | Except.error CommitErr.typeErr => Outcome.rejected OrchErr.typeErr
      | Except.error (CommitErr.mismatch m) =>
        Outcome.rejected (OrchErr.commitMismatch m)
    | _ => Outcome.resolved v
  | o => o

/-- The body of `travisStatus` after the synchronous validation
succeeded. -/
def travisStatusMain {E : Type} (opts : Options) (git : GitEnv E)
    (travis : TravisEnv E) : RunResult E :=
  let phase := resolveSlugPhase opts git
  let localCommitE := localCommitPhase opts git
  let slugE := slugForQuery phase.2 localCommitE
  let branchE := branchPhase opts git
  let q := queryPhase opts slugE branchE travis
  ⟨phase.1, q.1, verifyPhase localCommitE q.2⟩

/-- `travisStatus` of index.js lines 96-240: synchronous slug-format
validation, then the gather, query and verify phases. -/
def travisStatus {E : Type} (opts : Options) (git : GitEnv E)
    (travis : TravisEnv E) : RunResult E :=
  match validateSlugOpts (E := E) opts with
  | Except.error e => ⟨[], [], Outcome.rejected e⟩
  | Except.ok _ => travisStatusMain opts git travis

/-- String containment: the needle appears contiguously inside the hay. -/
def strContains (needle hay : String) : Prop :=
  ∃ u v : List Char, hay.data = u ++ needle.data ++ v

/-- A concrete repository response for the commit-augmented scenario. -/
def c8repoV : JsVal := JsVal.obj [("repo", JsVal.obj
  [("slug", JsVal.str "foo/bar"), ("last_build_id", JsVal.num 5),
   ("last_build_state", JsVal.str "passed")])]

/-- A concrete build response whose commit hash matches the resolved local
commit. -/
def c8buildV : JsVal := JsVal.obj
  [("build", JsVal.obj [("state", JsVal.str "passed")]),
   ("commit", JsVal.obj [("sha", JsVal.str "abc123")])]

/-- Options requesting a commit check on an explicit repo, with no branch
and no wait. -/
def c8opts : Options := ⟨some "foo/bar", none, none, some "abc123", false, none⟩

/-- A git collaborator that resolves the requested commit to itself. -/
def c8git : GitEnv Unit :=
  ⟨Except.error (), Except.error (),
   fun c => if c = "abc123" then Except.ok "abc123" else Except.error (), false⟩

/-- A Travis collaborator delivering the repository response for the
explicit slug and the build response for build id 5. -/
def c8travis : TravisEnv Unit :=
  ⟨fun sl => if sl = "foo/bar" then [(0, Except.ok c8repoV)] else [],
   fun _ _ => [],
   fun bid =>
     match bid with
     | some (JsVal.num 5) => [(0, Except.ok c8buildV)]
     | _ => []⟩

/-- Options for the single-build-query scenario: explicit repo, commit
check requested, no branch, no wait. -/
def c10opts : Options := ⟨some "foo/bar", none, none, some "abc", false, none⟩

/-- A git collaborator resolving the requested commit. -/
def c10git : GitEnv Unit :=
  ⟨Except.error (), Except.error (), fun _ => Except.ok "abc", true⟩

/-- A Travis collaborator whose build streams are all nonempty. -/
def c10travis : TravisEnv Unit :=
  ⟨fun _ => [(0, Except.ok (JsVal.obj [("repo",
      JsVal.obj [("slug", JsVal.str "foo/bar"),
        ("last_build_id", JsVal.num 5)])]))],
   fun _ _ => [],
   fun _ => [(0, Except.ok JsVal.null)]⟩

/-! ## Poller lemmas -/

/-- Running the query loop over a block of instantaneous pending responses
followed by a non-pending one: while the remaining budget exceeds the
idealised backoff total, every scheduled delay is the idealised one and the
loop stops at the first non-pending response. -/
theorem queryLoop_pending_run {V E : Type} (isP : V → Except Unit Bool)
    (W : Nat) (q : V) (rest : List (Nat × Except E V))
    (hq : isP q = Except.ok false) :
    ∀ (ps : List V) (elapsed nextWait : Nat),
      (∀ p ∈ ps, isP p = Except.ok true) →
      elapsed + (idealDelays ps.length nextWait).sum < W →
      queryLoop isP W
          (ps.map (fun p => ((0 : Nat), Except.ok p)) ++ (0, Except.ok q) :: rest)
          elapsed nextWait
        = ⟨PollOutcome.resolved q, ps.length + 1, idealDelays ps.length nextWait⟩ := by
  intro ps
  induction ps with
  | nil =>
    intro elapsed nextWait _ hW
    simp only [idealDelays, List.length_nil, List.sum_nil, Nat.add_zero] at hW
    have hW0 : ¬ W = 0 := by omega
    simp [queryLoop, hq, hW0, idealDelays]
  | cons p ps ih =>
    intro elapsed nextWait hps hW
    have hp : isP p = Except.ok true := hps p (List.mem_cons_self p ps)
    have hps2 : ∀ x ∈ ps, isP x = Except.ok true :=
      fun x hx => hps x (List.mem_cons_of_mem p hx)
    simp only [List.length_cons, idealDelays, List.sum_cons] at hW
    have hW0 : ¬ W = 0 := by omega
    have hlt : elapsed + 0 < W := by omega
    have hdle : min (nextWait * 2) POLL_TIME_MAX_MS ≤ W - (elapsed + 0) := by omega
    have hdmin : min (min (nextWait * 2) POLL_TIME_MAX_MS) (W - (elapsed + 0))
        = min (nextWait * 2) POLL_TIME_MAX_MS := Nat.min_eq_left hdle
    have hrec := ih (elapsed + 0 + min (nextWait * 2) POLL_TIME_MAX_MS)
      (min (nextWait * 2) POLL_TIME_MAX_MS) hps2 (by omega)
    simp only [List.map_cons, List.cons_append, queryLoop, hp, hW0, if_false,
      if_pos hlt, hdmin, List.length_cons, idealDelays]
    simp only [List.append_eq, Nat.add_zero] at hrec ⊢
    rw [hrec]

/-- Budget exhaustion at a pending observation resolves with that pending
response after the single query, with no further retry scheduled. -/
theorem queryLoop_budget_exhausted {V E : Type} (isP : V → Except Unit Bool)
    (W dur elapsed nextWait : Nat) (r : V) (rest : List (Nat × Except E V))
    (hW : 0 < W) (hpend : isP r = Except.ok true)
    (hex : W ≤ elapsed + dur) :
    queryLoop isP W ((dur, Except.ok r) :: rest) elapsed nextWait
      = ⟨PollOutcome.resolved r, 1, []⟩ := by
  have hW0 : ¬ W = 0 := by omega
  have hnlt : ¬ elapsed + dur < W := by omega
  simp [queryLoop, hpend, hW0, hnlt]

/-- With no wait budget the loop settles on the first response: one query,
no delays, and the classifier is never consulted. -/
theorem queryLoop_zero_budget {V E : Type} (isP : V → Except Unit Bool)
    (dur : Nat) (out : Except E V) (rest : List (Nat × Except E V))
    (elapsed nextWait : Nat) :
    (queryLoop isP 0 ((dur, out) :: rest) elapsed nextWait).numQueries = 1 := by
  cases out <;> simp [queryLoop]

/-- For a positive integral wait value, `queryWithWait` validates the option
and enters the loop at elapsed time zero with the halved starting
interval. -/
theorem queryWithWait_jsNum {V E : Type} (isP : V → Except Unit Bool)
    (W : Nat) (hW : W ≠ 0) (responses : List (Nat × Except E V)) :
    queryWithWait isP (some (jsNum (W : Int))) responses
      = queryLoop isP W responses 0 (POLL_TIME_START_MS / 2) := by
  have ht : ((W : Int) != 0) = true := by simp [hW]
  have hnn : ¬ ((W : Int) < 0) := by omega
  simp [queryWithWait, toMaxWait, jsNum, ht, hnn]

/-! ## Claim theorems about the poller -/

/-- C1: for a stream of `k` successful pending responses followed by one
non-pending response and a wait budget covering the total backoff delay,
`queryWithWait` issues exactly `k + 1` queries, resolves with the final
non-pending response, and schedules retry delays
`min (nextWait * 2) (min 60000 (waitMs - elapsed))` with the doubling state
initialised to half of the 4000 ms starting interval, so under the ample
budget the delays are the idealised truncated-doubling sequence starting at
4000 ms. -/
theorem poller_backoff_run {V E : Type} (isP : V → Except Unit Bool)
    (ps : List V) (q : V) (W : Nat)
    (hps : ∀ p ∈ ps, isP p = Except.ok true)
    (hq : isP q = Except.ok false)
    (hW : (idealDelays ps.length (POLL_TIME_START_MS / 2)).sum < W) :
    queryWithWait (E := E) isP (some (jsNum (W : Int)))
        (ps.map (fun p => ((0 : Nat), Except.ok p)) ++ [(0, Except.ok q)])
      = ⟨PollOutcome.resolved q, ps.length + 1,
          idealDelays ps.length (POLL_TIME_START_MS / 2)⟩ := by
  have hW0 : W ≠ 0 := by omega
  rw [queryWithWait_jsNum isP W hW0]
  exact queryLoop_pending_run isP W q [] hq ps 0 (POLL_TIME_START_MS / 2) hps
    (by omega)

/-- Witness for `poller_backoff_run`: one pending response then a passing
one, with a 4001 ms budget, gives two queries and the single 4000 ms retry
delay. -/
theorem poller_backoff_run_witness :
    queryWithWait (E := Unit) (fun b : Bool => Except.ok b)
        (some (jsNum ((4001 : Nat) : Int)))
        ([true].map (fun p => ((0 : Nat), Except.ok p)) ++ [(0, Except.ok false)])
      = ⟨PollOutcome.resolved false, 2, [4000]⟩ := by
  have h := poller_backoff_run (E := Unit) (fun b : Bool => Except.ok b)
    [true] false 4001 (by simp) rfl (by decide)
  simpa using h

/-- C2: during any poll run with a positive wait budget, when the budget is
exhausted at the moment a pending response is observed (elapsed time at
observation at least `waitMs`), the poller resolves successfully with that
pending response after the single further query; it also holds for the
whole call when the first response already exhausts the budget.  Budget
exhaustion is never a rejection. -/
theorem poller_timeout_as_pending {V E : Type} (isP : V → Except Unit Bool) :
    (∀ (W dur elapsed nextWait : Nat) (r : V) (rest : List (Nat × Except E V)),
      0 < W → isP r = Except.ok true → W ≤ elapsed + dur →
      queryLoop isP W ((dur, Except.ok r) :: rest) elapsed nextWait
        = ⟨PollOutcome.resolved r, 1, []⟩) ∧
    (∀ (W dur : Nat) (r : V) (rest : List (Nat × Except E V)),
      0 < W → isP r = Except.ok true → W ≤ dur →
      queryWithWait isP (some (jsNum (W : Int))) ((dur, Except.ok r) :: rest)
        = ⟨PollOutcome.resolved r, 1, []⟩) := by
  constructor
  · intro W dur elapsed nextWait r rest hW hpend hex
    exact queryLoop_budget_exhausted isP W dur elapsed nextWait r rest hW hpend hex
  · intro W dur r rest hW hpend hex
    rw [queryWithWait_jsNum isP W (by omega)]
    exact queryLoop_budget_exhausted isP W dur 0 (POLL_TIME_START_MS / 2) r rest
      hW hpend (by omega)

/-- Witness for `poller_timeout_as_pending`: a 5 ms budget exhausted by a
10 ms first query observing a pending response resolves with it. -/
theorem poller_timeout_as_pending_witness :
    queryWithWait (E := Unit) (fun b : Bool => Except.ok b)
        (some (jsNum ((5 : Nat) : Int))) [(10, Except.ok true)]
      = ⟨PollOutcome.resolved true, 1, []⟩ :=
  (poller_timeout_as_pending (E := Unit) (fun b : Bool => Except.ok b)).2
    5 10 true [] (by decide) rfl (by decide)

/-- C4: whenever the wait option computes to a zero budget (absent options,
absent `wait`, or any falsy-or-zero wait value), the poller issues exactly
one query and resolves with the first successful response immediately — for
every classifier, including one that always throws, since the classifier is
never consulted. -/
theorem poller_zero_wait {V E : Type} (wait : Option WaitValue)
    (h : toMaxWait (E := E) wait = Except.ok 0) :
    ∀ (isP : V → Except Unit Bool) (dur : Nat) (r : V)
      (rest : List (Nat × Except E V)),
      queryWithWait isP wait ((dur, Except.ok r) :: rest)
        = ⟨PollOutcome.resolved r, 1, []⟩ := by
  intro isP dur r rest
  simp [queryWithWait, h, queryLoop]

/-- Witness for `poller_zero_wait`: no wait option and an always-throwing
classifier still resolve with the first response after one query. -/
theorem poller_zero_wait_witness :
    queryWithWait (E := Unit) (fun _ : Nat => Except.error ()) none
        [(7, Except.ok 42)]
      = ⟨PollOutcome.resolved 42, 1, []⟩ :=
  poller_zero_wait (E := Unit) none rfl (fun _ => Except.error ()) 7 42 []

/-- C5 counterexample: the wait value NaN is non-numeric
(`Number(NaN)` is NaN, modelled by `toNumber = none`), yet the poller does
not fail: NaN is falsy, so the code treats it as a zero budget, issues one
query and resolves — contradicting the claim that every non-numeric wait
value fails synchronously with zero queries issued. -/
theorem poller_wait_nan_counterexample :
    jsNaN.toNumber = none ∧
    queryWithWait (E := Unit) (fun _ : Nat => Except.ok false) (some jsNaN)
        [(0, Except.ok 1)]
      = ⟨PollOutcome.resolved 1, 1, []⟩ :=
  ⟨rfl, rfl⟩

/-- C5 (amended): for every truthy wait option value, a non-numeric value
rejects with the TypeError and a negative numeric value rejects with the
RangeError, both synchronously with zero queries issued; falsy wait values
(NaN, 0) are instead treated as a zero budget. -/
theorem poller_invalid_wait {V E : Type} (v : WaitValue)
    (ht : v.truthy = true) :
    (v.toNumber = none →
      ∀ (isP : V → Except Unit Bool) (responses : List (Nat × Except E V)),
        queryWithWait isP (some v) responses
          = ⟨PollOutcome.rejected PollError.typeError, 0, []⟩) ∧
    (∀ n : Int, v.toNumber = some n → n < 0 →
      ∀ (isP : V → Except Unit Bool) (responses : List (Nat × Except E V)),
        queryWithWait isP (some v) responses
          = ⟨PollOutcome.rejected PollError.rangeError, 0, []⟩) := by
  constructor
  · intro hn isP responses
    simp [queryWithWait, toMaxWait, ht, hn]
  · intro n hn hneg isP responses
    simp [queryWithWait, toMaxWait, ht, hn, hneg]

/-- Witness for `poller_invalid_wait`: the truthy non-numeric value (for
example the string abc) gives the TypeError rejection, and the number -5
gives the RangeError rejection, with zero queries in both cases. -/
theorem poller_invalid_wait_witness :
    queryWithWait (E := Unit) (fun _ : Nat => Except.ok false)
        (some ⟨true, none⟩) [(0, Except.ok 1)]
      = ⟨PollOutcome.rejected PollError.typeError, 0, []⟩ ∧
    queryWithWait (E := Unit) (fun _ : Nat => Except.ok false)
        (some (jsNum (-5))) [(0, Except.ok 1)]
      = ⟨PollOutcome.rejected PollError.rangeError, 0, []⟩ :=
  ⟨(poller_invalid_wait (E := Unit) ⟨true, none⟩ rfl).1 rfl _ _,
   (poller_invalid_wait (E := Unit) (jsNum (-5)) (by decide)).2 (-5) rfl (by decide) _ _⟩

/-! ## Slug validation lemmas -/

/-- A character belongs to a slug segment exactly when it is neither
ECMAScript whitespace nor a slash. -/
theorem slugChar_iff (c : Char) :
    slugChar c = true ↔ jsWhitespace c = false ∧ c ≠ '/' := by
  simp [slugChar]

/-- A segment matches `[^\s\/]+` exactly when it is nonempty and every
character is neither whitespace nor a slash. -/
theorem segOk_iff (cs : List Char) :
    segOk cs = true ↔
      cs ≠ [] ∧ ∀ c ∈ cs, jsWhitespace c = false ∧ c ≠ '/' := by
  simp [segOk, slugChar_iff, List.isEmpty_iff]

/-- `slugSplit` succeeds exactly on lists that decompose at a first slash:
the part before contains no slash. -/
theorem slugSplit_some_iff (cs : List Char) :
    ∀ a b : List Char,
      slugSplit cs = some (a, b) ↔ cs = a ++ '/' :: b ∧ '/' ∉ a := by
  induction cs with
  | nil =>
    intro a b
    constructor
    · intro h
      exact absurd h (by simp [slugSplit])
    · rintro ⟨h, -⟩
      exact absurd h.symm (by simp)
  | cons c cs ih =>
    intro a b
    by_cases hc : c = '/'
    · subst hc
      simp only [slugSplit, beq_self_eq_true, if_true, Option.some.injEq,
        Prod.mk.injEq]
      constructor
      · rintro ⟨rfl, rfl⟩
        exact ⟨rfl, by simp⟩
      · rintro ⟨heq, hnos⟩
        cases a with
        | nil =>
          have hb : cs = b := by
            have := congrArg List.tail heq
            simpa using this
          exact ⟨rfl, hb⟩
        | cons c1 a1 =>
          have hc1 : c1 = '/' := by
            have := congrArg (fun l => l.head?) heq
            simpa using this.symm
          exact absurd (hc1 ▸ List.mem_cons_self c1 a1) hnos
    · have hcb : ¬ ((c == '/') = true) := by simp [hc]
      simp only [slugSplit, if_neg hcb]
      constructor
      · intro h
        cases hsp : slugSplit cs with
        | none => rw [hsp] at h; cases h
        | some ab =>
          obtain ⟨a2, b2⟩ := ab
          rw [hsp] at h
          simp only [Option.some.injEq, Prod.mk.injEq] at h
          obtain ⟨rfl, rfl⟩ := h
          obtain ⟨heq, hnos⟩ := (ih a2 b2).mp hsp
          refine ⟨by simp [heq], ?_⟩
          intro hm
          rcases List.mem_cons.mp hm with h1 | h2
          · exact hc h1.symm
          · exact hnos h2
      · rintro ⟨heq, hnos⟩
        cases a with
        | nil =>
          exfalso
          have : c = '/' := by
            have := congrArg (fun l => l.head?) heq
            simpa using this
          exact hc this
        | cons c1 a1 =>
          have hc1 : c = c1 := by
            have := congrArg (fun l => l.head?) heq
            simpa using this
          subst hc1
          have ha1 : cs = a1 ++ '/' :: b := by
            have := congrArg List.tail heq
            simpa using this
          have hnos1 : '/' ∉ a1 := fun hm => hnos (List.mem_cons_of_mem _ hm)
          rw [(ih a1 b).mpr ⟨ha1, hnos1⟩]

/-- The regex matcher succeeds exactly on strings of the shape
`segment/segment` with nonempty whitespace-free slash-free segments. -/
theorem SLUG_VALID_iff (s : String) :
    SLUG_VALID s = true ↔
      ∃ a b : List Char, s.data = a ++ '/' :: b ∧ a ≠ [] ∧ b ≠ [] ∧
        (∀ c ∈ a, jsWhitespace c = false ∧ c ≠ '/') ∧
        (∀ c ∈ b, jsWhitespace c = false ∧ c ≠ '/') := by
  unfold SLUG_VALID
  cases hsp : slugSplit s.data with
  | none =>
    simp only [Bool.false_eq_true, false_iff]
    rintro ⟨a, b, heq, -, -, ha, -⟩
    have h2 : slugSplit s.data = some (a, b) :=
      (slugSplit_some_iff s.data a b).mpr
        ⟨heq, fun hm => ((ha '/' hm).2 rfl).elim⟩
    rw [hsp] at h2
    cases h2
  | some ab =>
    obtain ⟨a, b⟩ := ab
    obtain ⟨heq, -⟩ := (slugSplit_some_iff s.data a b).mp hsp
    simp only [Bool.and_eq_true, segOk_iff]
    constructor
    · rintro ⟨⟨hane, ha⟩, ⟨hbne, hb⟩⟩
      exact ⟨a, b, heq, hane, hbne, ha, hb⟩
    · rintro ⟨a2, b2, heq2, ha2ne, hb2ne, ha2, hb2⟩
      have h2 : slugSplit s.data = some (a2, b2) :=
        (slugSplit_some_iff s.data a2 b2).mpr
          ⟨heq2, fun hm => ((ha2 '/' hm).2 rfl).elim⟩
      rw [hsp] at h2
      simp only [Option.some.injEq, Prod.mk.injEq] at h2
      obtain ⟨rfl, rfl⟩ := h2
      exact ⟨⟨ha2ne, ha2⟩, ⟨hb2ne, hb2⟩⟩

/-- C6: slug validation accepts a string and returns it unchanged exactly
when the string splits at a single slash into two nonempty segments free of
whitespace and slashes; every other string is rejected with the
`InvalidSlugError` carrying the offending slug. -/
theorem slug_validation_characterisation (s : String) :
    (checkSlugFormat s = Except.ok s ↔
      ∃ a b : List Char, s.data = a ++ '/' :: b ∧ a ≠ [] ∧ b ≠ [] ∧
        (∀ c ∈ a, jsWhitespace c = false ∧ c ≠ '/') ∧
        (∀ c ∈ b, jsWhitespace c = false ∧ c ≠ '/')) ∧
    (checkSlugFormat s = Except.ok s ∨
      checkSlugFormat s = Except.error (SlugError.invalidSlug s)) := by
  constructor
  · rw [← SLUG_VALID_iff]
    unfold checkSlugFormat
    by_cases h : SLUG_VALID s = true <;> simp [h]
  · unfold checkSlugFormat
    by_cases h : SLUG_VALID s = true <;> simp [h]

/-! ## Commit verifier lemmas -/

/-- A string is contained in any enclosing concatenation. -/
theorem strContains_mid (p s q : String) : strContains s (p ++ s ++ q) :=
  ⟨p.data, q.data, by simp [String.data_append]⟩

/-- C7: the verifier returns the fetched result unchanged when the embedded
commit hash equals the local commit hash, and otherwise fails with a message
containing the embedded hash, the expected hash, and the original reference
name when the local commit has one. -/
theorem commit_verifier_check (build buildCommit : JsVal) (x : String)
    (lc : LocalCommit)
    (hc : jsMember build "commit" = Except.ok (some buildCommit))
    (hsha : jsMember buildCommit "sha" = Except.ok (some (JsVal.str x))) :
    (x = lc.sha → checkBuildCommit build lc = Except.ok build) ∧
    (x ≠ lc.sha → ∃ msg,
      checkBuildCommit build lc = Except.error (CommitErr.mismatch msg) ∧
      strContains x msg ∧ strContains lc.sha msg ∧
      ∀ n, lc.name = some n → strContains n msg) := by
  simp only [checkBuildCommit, hc, hsha]
  constructor
  · intro hx
    simp [jsOptToString, jsToString, hx]
  · intro hx
    cases hn : lc.name with
    | none =>
      refine ⟨"Build commit " ++ x ++ " does not match " ++ lc.sha,
        by simp [jsOptToString, jsToString, hx], ?_, ?_, ?_⟩
      · exact ⟨"Build commit ".data, " does not match ".data ++ lc.sha.data,
          by simp [String.data_append]⟩
      · exact ⟨"Build commit ".data ++ x.data ++ " does not match ".data, [],
          by simp [String.data_append]⟩
      · intro n hn2
        cases hn2
    | some nm =>
      refine ⟨"Build commit " ++ x ++ " does not match " ++ lc.sha ++
          " (" ++ nm ++ ")",
        by simp [jsOptToString, jsToString, hx], ?_, ?_, ?_⟩
      · exact ⟨"Build commit ".data,
          " does not match ".data ++ lc.sha.data ++ " (".data ++ nm.data ++
            ")".data,
          by simp [String.data_append]⟩
      · exact ⟨"Build commit ".data ++ x.data ++ " does not match ".data,
          " (".data ++ nm.data ++ ")".data, by simp [String.data_append]⟩
      · intro n hn2
        obtain rfl : nm = n := by injection hn2
        exact ⟨"Build commit ".data ++ x.data ++ " does not match ".data ++
            lc.sha.data ++ " (".data, ")".data, by simp [String.data_append]⟩

/-- Witness for `commit_verifier_check`: a matching hash passes through and
a mismatching one fails with a message containing hash, expected hash and
reference name. -/
theorem commit_verifier_check_witness :
    (checkBuildCommit (JsVal.obj [("commit", JsVal.obj [("sha", JsVal.str "aaa")])])
        ⟨"aaa", none⟩ = Except.ok
          (JsVal.obj [("commit", JsVal.obj [("sha", JsVal.str "aaa")])])) ∧
    (∃ msg, checkBuildCommit
        (JsVal.obj [("commit", JsVal.obj [("sha", JsVal.str "bbb")])])
        ⟨"aaa", some "v1.0"⟩ = Except.error (CommitErr.mismatch msg) ∧
      strContains "bbb" msg ∧ strContains "aaa" msg ∧
      ∀ n, (some "v1.0" : Option String) = some n → strContains n msg) :=
  ⟨(commit_verifier_check
      (JsVal.obj [("commit", JsVal.obj [("sha", JsVal.str "aaa")])])
      (JsVal.obj [("sha", JsVal.str "aaa")]) "aaa"
      ⟨"aaa", none⟩ rfl rfl).1 rfl,
   (commit_verifier_check
      (JsVal.obj [("commit", JsVal.obj [("sha", JsVal.str "bbb")])])
      (JsVal.obj [("sha", JsVal.str "bbb")]) "bbb"
      ⟨"aaa", some "v1.0"⟩ rfl rfl).2 (by decide)⟩

/-! ## Object-merge lemmas -/

/-- After in-place update of the bindings for key `k`, looking `k` up finds
the new value, provided some binding for `k` existed. -/
theorem find?_updKey_self (fs : List (String × JsVal)) (k : String) (v : JsVal)
    (h : fs.any (fun p => p.1 == k) = true) :
    (fs.map (fun p => if p.1 == k then (k, v) else p)).find?
        (fun p => p.1 == k) = some (k, v) := by
  induction fs with
  | nil => simp at h
  | cons p fs ih =>
    by_cases hp : (p.1 == k) = true
    · rw [List.map_cons, if_pos hp,
        List.find?_cons_of_pos (p := fun q : String × JsVal => q.1 == k) _ (by simp)]
    · have h2 : fs.any (fun p => p.1 == k) = true := by
        simpa [List.any_cons, hp] using h
      rw [List.map_cons, if_neg hp,
        List.find?_cons_of_neg (p := fun q : String × JsVal => q.1 == k) _ hp]
      exact ih h2

/-- In-place update of the bindings for key `k` does not disturb lookups of
any other key. -/
theorem find?_updKey_other (fs : List (String × JsVal)) (k : String)
    (v : JsVal) (kq : String) (h : ¬ kq = k) :
    (fs.map (fun p => if p.1 == k then (k, v) else p)).find?
        (fun p => p.1 == kq)
      = fs.find? (fun p => p.1 == kq) := by
  induction fs with
  | nil => rfl
  | cons p fs ih =>
    by_cases hp : (p.1 == k) = true
    · have hpk : p.1 = k := by simpa using hp
      have h1 : ¬ ((k == kq) = true) := by
        simp only [beq_iff_eq]
        exact fun he => h he.symm
      have h2 : ¬ ((p.1 == kq) = true) := by
        rw [hpk]
        exact h1
      rw [List.map_cons, if_pos hp,
        List.find?_cons_of_neg (p := fun q : String × JsVal => q.1 == kq) _ h1,
        List.find?_cons_of_neg (p := fun q : String × JsVal => q.1 == kq) _ h2]
      exact ih
    · by_cases hq : (p.1 == kq) = true
      · rw [List.map_cons, if_neg hp,
          List.find?_cons_of_pos (p := fun q : String × JsVal => q.1 == kq) _ hq,
          List.find?_cons_of_pos (p := fun q : String × JsVal => q.1 == kq) _ hq]
      · rw [List.map_cons, if_neg hp,
          List.find?_cons_of_neg (p := fun q : String × JsVal => q.1 == kq) _ hq,
          List.find?_cons_of_neg (p := fun q : String × JsVal => q.1 == kq) _ hq]
        exact ih

/-- Looking up after one spread-assignment: the assigned key reads the new
value, every other key is untouched. -/
theorem objGet_objSet (fs : List (String × JsVal)) (k : String) (v : JsVal)
    (kq : String) :
    objGet (objSet fs k v) kq = if kq = k then some v else objGet fs kq := by
  by_cases hmem : fs.any (fun p => p.1 == k) = true
  · by_cases hk : kq = k
    · subst hk
      simp only [objGet, objSet, if_pos hmem, find?_updKey_self fs kq v hmem,
        if_pos rfl]
      simp
    · simp only [objGet, objSet, if_pos hmem,
        find?_updKey_other fs k v kq hk, if_neg hk]
  · have hfalse : fs.any (fun p => p.1 == k) = false := by
      cases hA : fs.any (fun p => p.1 == k) with
      | true => exact absurd hA hmem
      | false => rfl
    have hnone : fs.find? (fun p => p.1 == k) = none :=
      List.find?_eq_none.mpr (List.any_eq_false.mp hfalse)
    by_cases hk : kq = k
    · subst hk
      simp only [objGet, objSet, if_neg hmem, List.find?_append, hnone,
        Option.none_orElse, if_pos rfl]
      rw [List.find?_cons_of_pos (p := fun q : String × JsVal => q.1 == kq) _
        (by simp)]
      simp
    · have h1 : ¬ ((k == kq) = true) := by
        simp only [beq_iff_eq]
        exact fun he => hk he.symm
      simp only [objGet, objSet, if_neg hmem, List.find?_append, if_neg hk]
      rw [List.find?_cons_of_neg (p := fun q : String × JsVal => q.1 == kq) _ h1]
      cases fs.find? (fun p => p.1 == kq) <;> rfl

/-- Lookup through a full spread: a key bound in `b` reads its (unique)
binding from `b`, any other key falls back to `a`.  The keys of `b` must be
distinct — as they are for any JavaScript object — since with duplicates the
last duplicate wins the assignment while lookup returns the first. -/
theorem objGet_objSpread2 (b : List (String × JsVal)) :
    ∀ (a : List (String × JsVal)) (k : String),
      (b.map Prod.fst).Nodup →
      objGet (objSpread2 a b) k
        = match objGet b k with
          | some v => some v
          | none => objGet a k := by
  induction b with
  | nil =>
    intro a k _
    simp [objSpread2, objGet]
  | cons p b ih =>
    intro a k hnd
    obtain ⟨k1, v1⟩ := p
    rw [List.map_cons] at hnd
    obtain ⟨hk1, hnd2⟩ := List.nodup_cons.mp hnd
    have hstep : objSpread2 a ((k1, v1) :: b) = objSpread2 (objSet a k1 v1) b :=
      rfl
    rw [hstep, ih (objSet a k1 v1) k hnd2]
    by_cases hk : k = k1
    · subst hk
      have hb : objGet b k = none := by
        simp only [objGet]
        rw [List.find?_eq_none.mpr]
        intro x hx
        simp only [beq_iff_eq]
        intro he
        exact hk1 (List.mem_map.mpr ⟨x, hx, he⟩)
      rw [hb]
      have hcons : objGet ((k, v1) :: b) k = some v1 := by
        simp only [objGet]
        rw [List.find?_cons_of_pos (p := fun q : String × JsVal => q.1 == k) _
          (by simp)]
      rw [hcons, objGet_objSet, if_pos rfl]
    · have h1 : ¬ ((k1 == k) = true) := by
        simp only [beq_iff_eq]
        exact fun he => hk he.symm
      have hcons : objGet ((k1, v1) :: b) k = objGet b k := by
        simp only [objGet]
        rw [List.find?_cons_of_neg (p := fun q : String × JsVal => q.1 == k) _ h1]
      rw [hcons, objGet_objSet, if_neg hk]

/-! ## Orchestrator lemmas -/

/-- The queries of a full run are exactly the queries of the query phase on
the gathered local results. -/
theorem travisStatusMain_queries {E : Type} (opts : Options) (git : GitEnv E)
    (travis : TravisEnv E) :
    (travisStatusMain opts git travis).queries
      = (queryPhase opts
          (slugForQuery (resolveSlugPhase opts git).2 (localCommitPhase opts git))
          (branchPhase opts git) travis).1 := rfl

/-- When the synchronous validation fails, the run records nothing. -/
theorem travisStatus_of_validation_error {E : Type} (opts : Options)
    (git : GitEnv E) (travis : TravisEnv E) (e : OrchErr E)
    (h : validateSlugOpts (E := E) opts = Except.error e) :
    travisStatus opts git travis = ⟨[], [], Outcome.rejected e⟩ := by
  simp [travisStatus, h]

/-- When the synchronous validation succeeds, the run is the main body. -/
theorem travisStatus_of_validation_ok {E : Type} (opts : Options)
    (git : GitEnv E) (travis : TravisEnv E)
    (h : validateSlugOpts (E := E) opts = Except.ok ()) :
    travisStatus opts git travis = travisStatusMain opts git travis := by
  simp [travisStatus, h]

/-- A failed slug resolution reaches the query phase as a rejection. -/
theorem slugForQuery_error_left {E : Type} (e : OrchErr E)
    (lcE : Except (OrchErr E) (Option LocalCommit)) :
    slugForQuery (Except.error e) lcE = Except.error e := rfl

/-- A failed commit resolution reaches the query phase as a rejection. -/
theorem slugForQuery_error_right {E : Type} (rE : Except (OrchErr E) String)
    (e : OrchErr E) :
    ∃ e2, slugForQuery rE (Except.error e) = Except.error e2 := by
  cases rE with
  | error e1 => exact ⟨e1, rfl⟩
  | ok s => exact ⟨e, rfl⟩

/-- No remote query is issued when slug resolution or commit resolution
failed. -/
theorem queryPhase_nil_of_slug_error {E : Type} (opts : Options)
    (e : OrchErr E) (branchE : Option (Except (OrchErr E) String))
    (travis : TravisEnv E) :
    (queryPhase opts (Except.error e) branchE travis).1 = [] := by
  cases branchE with
  | none => rfl
  | some be => rfl

/-- No remote query is issued when branch detection failed. -/
theorem queryPhase_nil_of_branch_error {E : Type} (opts : Options)
    (slugE : Except (OrchErr E) String) (e : OrchErr E)
    (travis : TravisEnv E) :
    (queryPhase opts slugE (some (Except.error e)) travis).1 = [] := by
  cases slugE with
  | error e1 => rfl
  | ok s => rfl

/-- On the no-branch no-commit path, the only query of a run is the
repository query for the resolved slug. -/
theorem queryPhase_repo_queries {E : Type} (opts : Options) (slug : String)
    (travis : TravisEnv E) (hcommit : opts.commit = none) :
    (queryPhase opts (Except.ok slug) none travis).1
      = [(RemoteQuery.repoQ slug,
          (queryWithWait repoIsPending opts.wait
            (travis.repoResponses slug)).numQueries)] := by
  simp only [queryPhase]
  split <;> simp [hcommit]

/-- On the branch path, the only query of a run is the branch query for the
resolved slug and branch. -/
theorem queryPhase_branch_queries {E : Type} (opts : Options) (slug b : String)
    (travis : TravisEnv E) :
    (queryPhase opts (Except.ok slug) (some (Except.ok b)) travis).1
      = [(RemoteQuery.branchQ slug b,
          (queryWithWait branchIsPending opts.wait
            (travis.branchResponses slug b)).numQueries)] := rfl

/-- A poll with no wait options issues exactly one query on a nonempty
response stream. -/
theorem queryWithWait_none_numQueries {V E : Type}
    (isP : V → Except Unit Bool) (resp : List (Nat × Except E V))
    (h : resp ≠ []) :
    (queryWithWait isP none resp).numQueries = 1 := by
  cases resp with
  | nil => exact absurd rfl h
  | cons p rest =>
    obtain ⟨d, o⟩ := p
    exact queryLoop_zero_budget isP d o rest 0 (POLL_TIME_START_MS / 2)

/-- Every query issued by the chained build step is a single-request build
query, because `getBuild` is invoked without wait options. -/
theorem buildChain_queries_count {E : Type} (travis : TravisEnv E)
    (repoV : JsVal) (hne : ∀ bid, travis.buildResponses bid ≠ []) :
    ∀ q ∈ (buildChain travis repoV).1, q.2 = 1 := by
  simp only [buildChain]
  split
  · simp
  · simp
  · split
    · simp
    · split
      · simp
      · intro q hq
        simp only [List.mem_singleton] at hq
        subst hq
        exact queryWithWait_none_numQueries buildIsPending _ (hne _)

/-! ## Claim theorems about the orchestrator -/

/-- C3: whenever a local step fails — slug format validation, slug
loading/detection, branch detection, or commit-hash resolution — the
orchestrator issues zero remote queries. -/
theorem orchestrator_no_queries_on_local_failure {E : Type} (opts : Options)
    (git : GitEnv E) (travis : TravisEnv E)
    (h : (∃ r, opts.repo = some r ∧ SLUG_VALID r = false)
       ∨ (∃ s, opts.storeRepo = some s ∧ SLUG_VALID s = false)
       ∨ (opts.repo = none ∧ opts.storeRepo = none ∧
            ((∃ e, git.findSlugResult = Except.error e)
             ∨ (∃ sl, git.findSlugResult = Except.ok sl ∧
                  SLUG_VALID sl = false)))
       ∨ (∃ c e, opts.commit = some c ∧
            git.resolveHashResult c = Except.error e)
       ∨ (opts.branch = some BranchOpt.current ∧
            ∃ e, git.detectBranchResult = Except.error e)) :
    (travisStatus opts git travis).queries = [] := by
  rcases h with ⟨r, hrepo, hrv⟩ | ⟨s, hstore, hsv⟩ | ⟨hrn, hsn, hfind⟩ |
    ⟨c, e, hc, hre⟩ | ⟨hbr, e, hde⟩
  · have hval : validateSlugOpts (E := E) opts
        = Except.error (OrchErr.invalidSlug r) := by
      simp [validateSlugOpts, hrepo, hrv]
    rw [travisStatus_of_validation_error opts git travis _ hval]
  · have hval : ∃ e, validateSlugOpts (E := E) opts = Except.error e := by
      cases hrepo : opts.repo with
      | none =>
        exact ⟨OrchErr.invalidSlug s,
          by simp [validateSlugOpts, validateStore, hrepo, hstore, hsv]⟩
      | some r =>
        by_cases hr : SLUG_VALID r = true
        · exact ⟨OrchErr.invalidSlug s,
            by simp [validateSlugOpts, validateStore, hrepo, hr, hstore, hsv]⟩
        · exact ⟨OrchErr.invalidSlug r, by simp [validateSlugOpts, hrepo, hr]⟩
    obtain ⟨e, hval⟩ := hval
    rw [travisStatus_of_validation_error opts git travis e hval]
  · have hval : validateSlugOpts (E := E) opts = Except.ok () := by
      simp [validateSlugOpts, validateStore, hrn, hsn]
    rw [travisStatus_of_validation_ok opts git travis hval,
      travisStatusMain_queries]
    have hphase : ∃ e2, (resolveSlugPhase opts git).2 = Except.error e2 := by
      rcases hfind with ⟨e, hfe⟩ | ⟨sl, hfo, hsv⟩
      · exact ⟨OrchErr.gitErr e, by simp [resolveSlugPhase, hrn, hsn, hfe]⟩
      · exact ⟨OrchErr.invalidSlug sl,
          by simp [resolveSlugPhase, hrn, hsn, hfo, hsv]⟩
    obtain ⟨e2, hphase⟩ := hphase
    rw [hphase, slugForQuery_error_left]
    exact queryPhase_nil_of_slug_error opts e2 _ travis
  · cases hval : validateSlugOpts (E := E) opts with
    | error e1 =>
      rw [travisStatus_of_validation_error opts git travis e1 hval]
    | ok u =>
      obtain ⟨⟩ := u
      rw [travisStatus_of_validation_ok opts git travis hval,
        travisStatusMain_queries]
      have hlc : localCommitPhase opts git = Except.error (OrchErr.gitErr e) := by
        simp [localCommitPhase, hc, hre]
      rw [hlc]
      obtain ⟨e2, hsfq⟩ :=
        slugForQuery_error_right (resolveSlugPhase opts git).2 (OrchErr.gitErr e)
      rw [hsfq]
      exact queryPhase_nil_of_slug_error opts e2 _ travis
  · cases hval : validateSlugOpts (E := E) opts with
    | error e1 =>
      rw [travisStatus_of_validation_error opts git travis e1 hval]
    | ok u =>
      obtain ⟨⟩ := u
      rw [travisStatus_of_validation_ok opts git travis hval,
        travisStatusMain_queries]
      have hbp : branchPhase opts git
          = some (Except.error (OrchErr.gitErr e)) := by
        simp [branchPhase, hbr, hde]
      rw [hbp]
      cases hsl : slugForQuery (resolveSlugPhase opts git).2
          (localCommitPhase opts git) with
      | error e2 => exact queryPhase_nil_of_slug_error opts e2 _ travis
      | ok slug => exact queryPhase_nil_of_branch_error opts _ _ travis

/-- Witness for `orchestrator_no_queries_on_local_failure`: an invalid
explicit repo issues no query. -/
theorem orchestrator_no_queries_on_local_failure_witness :
    (travisStatus (E := Unit)
        ⟨some "invalid", none, none, none, false, none⟩
        ⟨Except.error (), Except.error (), fun _ => Except.error (), false⟩
        ⟨fun _ => [], fun _ _ => [], fun _ => []⟩).queries = [] :=
  orchestrator_no_queries_on_local_failure _ _ _
    (Or.inl ⟨"invalid", rfl, by decide⟩)

/-- C9: with both an explicit repo slug and a store-repo slug supplied (both
format-valid) and a working git configuration, the persisted value is the
store-repo slug while every repo or branch query uses the explicit repo
slug. -/
theorem orchestrator_store_vs_query_slug {E : Type} (r s : String)
    (git : GitEnv E) (travis : TravisEnv E) (br : Option BranchOpt) (i : Bool)
    (w : Option WaitValue)
    (hr : SLUG_VALID r = true) (hs : SLUG_VALID s = true)
    (hstore : git.configSetOk = true) :
    (travisStatus ⟨some r, some s, br, none, i, w⟩ git travis).storedSlugs
      = [s] ∧
    ∀ q ∈ (travisStatus ⟨some r, some s, br, none, i, w⟩ git travis).queries,
      querySlug q.1 = some r := by
  have hval : validateSlugOpts (E := E) ⟨some r, some s, br, none, i, w⟩
      = Except.ok () := by
    simp [validateSlugOpts, validateStore, hr, hs]
  rw [travisStatus_of_validation_ok _ git travis hval]
  constructor
  · show (resolveSlugPhase ⟨some r, some s, br, none, i, w⟩ git).1 = [s]
    simp [resolveSlugPhase, hs, hstore]
  · rw [travisStatusMain_queries]
    have hphase : (resolveSlugPhase ⟨some r, some s, br, none, i, w⟩ git).2
        = Except.ok r := by
      simp [resolveSlugPhase]
    have hsfq : slugForQuery
        (resolveSlugPhase ⟨some r, some s, br, none, i, w⟩ git).2
        (localCommitPhase ⟨some r, some s, br, none, i, w⟩ git)
        = Except.ok r := by
      rw [hphase]
      rfl
    rw [hsfq]
    cases br with
    | none =>
      rw [show branchPhase (E := E) ⟨some r, some s, none, none, i, w⟩ git
          = none from rfl]
      rw [queryPhase_repo_queries _ r travis rfl]
      intro q hq
      simp only [List.mem_singleton] at hq
      subst hq
      rfl
    | some bo =>
      cases bo with
      | named b =>
        rw [show branchPhase (E := E)
            ⟨some r, some s, some (BranchOpt.named b), none, i, w⟩ git
            = some (Except.ok b) from rfl]
        rw [queryPhase_branch_queries _ r b travis]
        intro q hq
        simp only [List.mem_singleton] at hq
        subst hq
        rfl
      | current =>
        cases hdb : git.detectBranchResult with
        | error e =>
          have hbp : branchPhase (E := E)
              ⟨some r, some s, some BranchOpt.current, none, i, w⟩ git
              = some (Except.error (OrchErr.gitErr e)) := by
            simp [branchPhase, hdb]
          rw [hbp, queryPhase_nil_of_branch_error]
          intro q hq
          cases hq
        | ok b =>
          have hbp : branchPhase (E := E)
              ⟨some r, some s, some BranchOpt.current, none, i, w⟩ git
              = some (Except.ok b) := by
            simp [branchPhase, hdb]
          rw [hbp, queryPhase_branch_queries _ r b travis]
          intro q hq
          simp only [List.mem_singleton] at hq
          subst hq
          rfl

/-- Witness for `orchestrator_store_vs_query_slug`. -/
theorem orchestrator_store_vs_query_slug_witness :
    (travisStatus (E := Unit)
        ⟨some "foo/bar", some "baz/quux", none, none, false, none⟩
        ⟨Except.error (), Except.error (), fun _ => Except.error (), true⟩
        ⟨fun _ => [], fun _ _ => [], fun _ => []⟩).storedSlugs = ["baz/quux"] ∧
    ∀ q ∈ (travisStatus (E := Unit)
        ⟨some "foo/bar", some "baz/quux", none, none, false, none⟩
        ⟨Except.error (), Except.error (), fun _ => Except.error (), true⟩
        ⟨fun _ => [], fun _ _ => [], fun _ => []⟩).queries,
      querySlug q.1 = some "foo/bar" :=
  orchestrator_store_vs_query_slug "foo/bar" "baz/quux" _ _ none false none
    (by decide) (by decide) rfl

/-- C10: on the repository path (no branch requested), every chained build
query the orchestrator issues performs exactly one HTTP request — the
`getBuild` call passes no wait options, so a pending build result is never
re-polled, whatever the caller supplied as `wait`. -/
theorem orchestrator_build_query_single {E : Type} (opts : Options)
    (git : GitEnv E) (travis : TravisEnv E)
    (hb : opts.branch = none)
    (hne : ∀ bid, travis.buildResponses bid ≠ []) :
    ∀ q ∈ (travisStatus opts git travis).queries,
      isBuildQuery q.1 = true → q.2 = 1 := by
  cases hval : validateSlugOpts (E := E) opts with
  | error e =>
    rw [travisStatus_of_validation_error opts git travis e hval]
    intro q hq
    cases hq
  | ok u =>
    obtain ⟨⟩ := u
    rw [travisStatus_of_validation_ok opts git travis hval]
    intro q hq
    rw [travisStatusMain_queries] at hq
    have hbp : branchPhase opts git = none := by simp [branchPhase, hb]
    rw [hbp] at hq
    cases hsl : slugForQuery (resolveSlugPhase opts git).2
        (localCommitPhase opts git) with
    | error e2 =>
      rw [hsl, queryPhase_nil_of_slug_error] at hq
      cases hq
    | ok slug =>
      rw [hsl] at hq
      simp only [queryPhase] at hq
      intro hbuild
      rcases hout : (queryWithWait repoIsPending opts.wait
          (travis.repoResponses slug)).outcome with v | e3 | _
      · rw [hout] at hq
        simp only at hq
        by_cases hcs : opts.commit.isSome = true
        · rw [if_pos hcs] at hq
          rcases List.mem_cons.mp hq with hq1 | hq2
          · subst hq1
            cases hbuild
          · exact buildChain_queries_count travis v hne q hq2
        · rw [if_neg hcs] at hq
          simp only [List.mem_singleton] at hq
          subst hq
          cases hbuild
      · rw [hout] at hq
        simp only [List.mem_singleton] at hq
        subst hq
        cases hbuild
      · rw [hout] at hq
        simp only [List.mem_singleton] at hq
        subst hq
        cases hbuild

/-- C8: a commit-augmented repository query returns the spread-merge of the
repository result and the build result, and under that merge every key
present in the build result reads the build value while every key absent
from it keeps the repository value. -/
theorem merge_semantics :
    (travisStatus c8opts c8git c8travis
      = ⟨[], [(RemoteQuery.repoQ "foo/bar", 1),
              (RemoteQuery.buildQ (some (JsVal.str "foo/bar"))
                (some (JsVal.num 5)), 1)],
          Outcome.resolved (mergeResults c8repoV c8buildV)⟩) ∧
    (∀ (a b : List (String × JsVal)) (k : String),
      (b.map Prod.fst).Nodup →
      ((∀ v, objGet b k = some v → objGet (objSpread2 a b) k = some v) ∧
       (objGet b k = none → objGet (objSpread2 a b) k = objGet a k))) := by
  constructor
  · rfl
  · intro a b k hnd
    constructor
    · intro v hv
      rw [objGet_objSpread2 b a k hnd, hv]
    · intro hn
      rw [objGet_objSpread2 b a k hnd, hn]

/-- Witness for `merge_semantics`: a key bound in both sides reads the build
value, a key bound only in the repository side keeps its value. -/
theorem merge_semantics_witness :
    objGet (objSpread2 [("x", JsVal.num 1), ("y", JsVal.num 3)]
        [("x", JsVal.num 2)]) "x" = some (JsVal.num 2) ∧
    objGet (objSpread2 [("x", JsVal.num 1), ("y", JsVal.num 3)]
        [("x", JsVal.num 2)]) "y"
      = objGet [("x", JsVal.num 1), ("y", JsVal.num 3)] "y" :=
  ⟨(merge_semantics.2 [("x", JsVal.num 1), ("y", JsVal.num 3)]
      [("x", JsVal.num 2)] "x" (by simp)).1 (JsVal.num 2) rfl,
   (merge_semantics.2 [("x", JsVal.num 1), ("y", JsVal.num 3)]
      [("x", JsVal.num 2)] "y" (by simp)).2 rfl⟩

/-- Witness for `orchestrator_build_query_single`: in the concrete run the
recorded build query is a member of the trace and the theorem applies to it,
giving its single-request count. -/
theorem orchestrator_build_query_single_witness :
    (RemoteQuery.buildQ (some (JsVal.str "foo/bar")) (some (JsVal.num 5)), 1)
      ∈ (travisStatus (E := Unit) c10opts c10git c10travis).queries ∧
    (RemoteQuery.buildQ (some (JsVal.str "foo/bar")) (some (JsVal.num 5)),
      1).2 = 1 := by
  have hqs : (travisStatus (E := Unit) c10opts c10git c10travis).queries
      = [(RemoteQuery.repoQ "foo/bar", 1),
         (RemoteQuery.buildQ (some (JsVal.str "foo/bar"))
           (some (JsVal.num 5)), 1)] := rfl
  have hmem : (RemoteQuery.buildQ (some (JsVal.str "foo/bar"))
        (some (JsVal.num 5)), 1)
      ∈ (travisStatus (E := Unit) c10opts c10git c10travis).queries := by
    rw [hqs]
    exact List.mem_cons_of_mem _ (List.mem_cons_self _ _)
  exact ⟨hmem, orchestrator_build_query_single c10opts c10git c10travis rfl
    (fun _ => List.cons_ne_nil _ _) _ hmem rfl⟩

end TravisStatus
